import Mathlib

/-!
# Verification of the bedrock distributed-tracing subsystem

A shallow embedding, in Lean 4, of the tracing core of the `kzs0/bedrock`
Go repository: the identifier layer (`internal/id.go`), the W3C trace-context
codec (`trace/w3c/w3c.go`), the span lifecycle (`trace/span.go`), the tracer
(`trace/tracer.go`), the context plumbing (`trace/context.go`), the HTTP
propagator, and the batch processor (`trace/otlp/batch.go`).

Go strings are modelled as `List Char`; bytes as `Nat` (with explicit `< 256`
bounds where they matter); `time.Time` as `Nat` instants passed explicitly;
fallible functions return `Option`.
-/

set_option autoImplicit false

namespace Bedrock

/-! ## String helpers (Go `strings` package operations used by the code) -/

/-- Go `strings.Split(s, sep)` for a single-character separator: the
substrings between occurrences of `sep`, empty substrings included. -/
def splitOnChar (sep : Char) : List Char → List (List Char)
  | [] => [[]]
  | c :: rest =>
    match splitOnChar sep rest with
    | [] => [[]]
    | s :: ss => if c = sep then [] :: s :: ss else (c :: s) :: ss

theorem splitOnChar_ne_nil (sep : Char) (l : List Char) :
    splitOnChar sep l ≠ [] := by
  cases l with
  | nil => simp [splitOnChar]
  | cons c rest =>
    simp only [splitOnChar]
    cases h : splitOnChar sep rest with
    | nil => simp
    | cons s ss =>
      by_cases hc : c = sep <;> simp [hc]

/-- Splitting a list that contains no separator yields the list itself. -/
theorem splitOnChar_no_sep (sep : Char) (l : List Char) (h : sep ∉ l) :
    splitOnChar sep l = [l] := by
  induction l with
  | nil => rfl
  | cons c rest ih =>
    simp only [List.mem_cons, not_or] at h
    simp only [splitOnChar, ih h.2]
    have : c ≠ sep := fun hh => h.1 hh.symm
    simp [this]

/-- Splitting across a separator: the prefix (separator-free) becomes the
first field. -/
theorem splitOnChar_append (sep : Char) (a b : List Char) (h : sep ∉ a) :
    splitOnChar sep (a ++ sep :: b) = a :: splitOnChar sep b := by
  induction a with
  | nil =>
    simp only [List.nil_append, splitOnChar]
    cases hb : splitOnChar sep b with
    | nil => exact absurd hb (splitOnChar_ne_nil sep b)
    | cons s ss => simp
  | cons c rest ih =>
    simp only [List.mem_cons, not_or] at h
    have hne : c ≠ sep := fun hh => h.1 hh.symm
    have hrec := ih h.2
    show splitOnChar sep (c :: (rest ++ sep :: b)) = (c :: rest) :: splitOnChar sep b
    rw [splitOnChar, hrec]
    simp [hne]

/-! ## Hex encoding/decoding (Go `encoding/hex`) -/

/-- Value of one hex digit; `none` for a non-hex character.  Mirrors
`encoding/hex.fromHexChar` (accepts both cases). -/
def fromHexChar (c : Char) : Option Nat :=
  if '0' ≤ c ∧ c ≤ '9' then some (c.toNat - '0'.toNat)
  else if 'a' ≤ c ∧ c ≤ 'f' then some (c.toNat - 'a'.toNat + 10)
  else if 'A' ≤ c ∧ c ≤ 'F' then some (c.toNat - 'A'.toNat + 10)
  else none

/-- Lowercase hex digit for a value `< 16` (Go `encoding/hex` hextable). -/
def hexDigitChar (n : Nat) : Char :=
  if n < 10 then Char.ofNat ('0'.toNat + n)
  else Char.ofNat ('a'.toNat + (n - 10))

/-- Go `hex.EncodeToString` over a byte list: two lowercase hex digits per
byte, high nibble first. -/
def hexEncode : List Nat → List Char
  | [] => []
  | b :: rest => hexDigitChar (b / 16 % 16) :: hexDigitChar (b % 16) :: hexEncode rest

/-- Go `hex.DecodeString`: fails on an odd-length input or any non-hex
character, otherwise pairs hex digits into bytes. -/
def hexDecode : List Char → Option (List Nat)
  | [] => some []
  | [_] => none
  | hi :: lo :: rest =>
    match fromHexChar hi, fromHexChar lo, hexDecode rest with
    | some h, some l, some bs => some ((h * 16 + l) :: bs)
    | _, _, _ => none

theorem hexEncode_length (l : List Nat) : (hexEncode l).length = 2 * l.length := by
  induction l with
  | nil => rfl
  | cons b rest ih =>
    simp only [hexEncode, List.length_cons, ih]
    ring

theorem fromHexChar_hexDigitChar (n : Nat) (h : n < 16) :
    fromHexChar (hexDigitChar n) = some n := by
  interval_cases n <;> decide

/-- Decoding inverts encoding on genuine byte lists. -/
theorem hexDecode_hexEncode (l : List Nat) (h : ∀ b ∈ l, b < 256) :
    hexDecode (hexEncode l) = some l := by
  induction l with
  | nil => simp [hexEncode, hexDecode]
  | cons b rest ih =>
    have hb : b < 256 := h b (List.mem_cons_self b rest)
    have hrest : ∀ x ∈ rest, x < 256 := fun x hx => h x (List.mem_cons_of_mem b hx)
    have h1 : b / 16 % 16 < 16 := Nat.mod_lt _ (by norm_num)
    have h2 : b % 16 < 16 := Nat.mod_lt _ (by norm_num)
    have hbyte : b / 16 % 16 * 16 + b % 16 = b := by omega
    simp only [hexEncode, hexDecode, fromHexChar_hexDigitChar _ h1,
      fromHexChar_hexDigitChar _ h2, ih hrest, hbyte]

/-- A character emitted by the hex encoder is a lowercase hex digit. -/
theorem hexDigitChar_lower (n : Nat) (h : n < 16) :
    ('0' ≤ hexDigitChar n ∧ hexDigitChar n ≤ '9') ∨
      ('a' ≤ hexDigitChar n ∧ hexDigitChar n ≤ 'f') := by
  interval_cases n <;> decide

theorem mem_hexEncode_lower (l : List Nat) (c : Char) (hc : c ∈ hexEncode l) :
    ('0' ≤ c ∧ c ≤ '9') ∨ ('a' ≤ c ∧ c ≤ 'f') := by
  induction l with
  | nil => simp [hexEncode] at hc
  | cons b rest ih =>
    simp only [hexEncode, List.mem_cons] at hc
    rcases hc with h1 | h2 | h3
    · exact h1 ▸ hexDigitChar_lower _ (Nat.mod_lt _ (by norm_num))
    · exact h2 ▸ hexDigitChar_lower _ (Nat.mod_lt _ (by norm_num))
    · exact ih h3

/-! ## Identifier layer (`internal/id.go`)

`TraceID` is 16 bytes, `SpanID` 8 bytes; both are modelled as `List Nat`
with explicit length/bound hypotheses where they matter. -/

/-- Go `copy(id[:], b)` into a zero-initialized fixed array of `n` bytes:
takes at most `n` bytes of `b`, the remainder stays zero. -/
def goCopyFixed (n : Nat) (b : List Nat) : List Nat :=
  b.take n ++ List.replicate (n - b.length) 0

/-- `internal.TraceIDFromHex`: hex-decode, then copy into the 16-byte array.
The only failure is a hex-decoding error; the length is never checked. -/
def TraceIDFromHex (s : List Char) : Option (List Nat) :=
  match hexDecode s with
  | none => none
  | some b => some (goCopyFixed 16 b)

/-- `internal.SpanIDFromHex`: hex-decode, then copy into the 8-byte array. -/
def SpanIDFromHex (s : List Char) : Option (List Nat) :=
  match hexDecode s with
  | none => none
  | some b => some (goCopyFixed 8 b)

/-- `TraceID.IsZero` / `SpanID.IsZero`: every byte is zero. -/
def isZeroID (id : List Nat) : Bool :=
  id.all (· = 0)

theorem goCopyFixed_of_length (n : Nat) (b : List Nat) (h : b.length = n) :
    goCopyFixed n b = b := by
  simp [goCopyFixed, h, List.take_of_length_le (le_of_eq h)]

/-! ## W3C traceparent codec (`trace/w3c/w3c.go`) -/

def versionLen : Nat := 2
def traceIDLen : Nat := 32
def spanIDLen : Nat := 16
def flagsLen : Nat := 2
def fieldCount : Nat := 4
def minLength : Nat := versionLen + 1 + traceIDLen + 1 + spanIDLen + 1 + flagsLen
def SampledFlag : Nat := 0x01

/-- `w3c.isHex` character test (case-insensitive hex). -/
def isHexChar (c : Char) : Bool :=
  (('0' ≤ c) && (c ≤ '9')) || (('a' ≤ c) && (c ≤ 'f')) || (('A' ≤ c) && (c ≤ 'F'))

/-- `w3c.isHex`: every character is a hex digit (either case). -/
def isHex (s : List Char) : Bool :=
  s.all isHexChar

/-- `w3c.isLowercaseHex` character test. -/
def isLowerHexChar (c : Char) : Bool :=
  (('0' ≤ c) && (c ≤ '9')) || (('a' ≤ c) && (c ≤ 'f'))

/-- `w3c.isLowercaseHex`: every character is a lowercase hex digit. -/
def isLowercaseHex (s : List Char) : Bool :=
  s.all isLowerHexChar

/-- Guard-style early return: an `if cond then none else rest` succeeds
exactly when the guard fails and the rest succeeds. -/
theorem ite_none_eq_some {α : Type} {p : Prop} [Decidable p] {b : Option α}
    {x : α} : (if p then none else b) = some x ↔ ¬p ∧ b = some x := by
  by_cases h : p <;> simp [h]

/-- `w3c.ParseTraceparent`.  Returns `(traceID, parentID, flags byte)` or
`none` for any of the validation errors.  The Go `if/else` chain around the
version field nets out to: reject exactly the version string `"ff"` (any
other 2-hex-char version, `"00"` or a future one, proceeds). -/
def ParseTraceparent (value : List Char) :
    Option (List Nat × List Nat × Nat) :=
  if value.length < minLength then none
  else
    let fields := splitOnChar '-' value
    if fields.length < fieldCount then none
    else
      let version := fields.getD 0 []
      let traceIDHex := fields.getD 1 []
      let parentIDHex := fields.getD 2 []
      let flagsHex := fields.getD 3 []
      if version.length ≠ versionLen then none
      else if ¬ isHex version then none
      else if version = ['f', 'f'] then none
      else if traceIDHex.length ≠ traceIDLen then none
      else if ¬ isLowercaseHex traceIDHex then none
      else
        (TraceIDFromHex traceIDHex).bind fun traceID =>
          if isZeroID traceID then none
          else if parentIDHex.length ≠ spanIDLen then none
          else if ¬ isLowercaseHex parentIDHex then none
          else
            (SpanIDFromHex parentIDHex).bind fun parentID =>
              if isZeroID parentID then none
              else if flagsHex.length ≠ flagsLen then none
              else if ¬ isHex flagsHex then none
              else
                (hexDecode flagsHex).bind fun flagsBytes =>
                  some (traceID, parentID, flagsBytes.getD 0 0)

/-- Go `fmt.Sprintf("%02x", b)` for a byte value. -/
def byteToHex2 (b : Nat) : List Char :=
  [hexDigitChar (b / 16 % 16), hexDigitChar (b % 16)]

/-- `w3c.FormatTraceparent`: always version `00`, flags byte `0x01` iff
sampled. -/
def FormatTraceparent (traceID spanID : List Nat) (sampled : Bool) : List Char :=
  let flags : Nat := if sampled then SampledFlag else 0
  ['0', '0', '-'] ++ hexEncode traceID ++ '-' :: hexEncode spanID
    ++ '-' :: byteToHex2 flags

/-! ### Facts about the formatted string needed for the round-trip -/

theorem dash_not_mem_hexEncode (l : List Nat) : '-' ∉ hexEncode l := by
  intro hmem
  rcases mem_hexEncode_lower l '-' hmem with ⟨h1, _⟩ | ⟨h1, _⟩ <;> exact absurd h1 (by decide)

theorem isLowercaseHex_hexEncode (l : List Nat) : isLowercaseHex (hexEncode l) = true := by
  rw [isLowercaseHex, List.all_eq_true]
  intro c hc
  rcases mem_hexEncode_lower l c hc with ⟨h1, h2⟩ | ⟨h1, h2⟩ <;>
    simp [isLowerHexChar, h1, h2]

theorem TraceIDFromHex_hexEncode (t : List Nat) (ht : t.length = 16)
    (htb : ∀ b ∈ t, b < 256) : TraceIDFromHex (hexEncode t) = some t := by
  simp [TraceIDFromHex, hexDecode_hexEncode t htb, goCopyFixed_of_length 16 t ht]

theorem SpanIDFromHex_hexEncode (s : List Nat) (hs : s.length = 8)
    (hsb : ∀ b ∈ s, b < 256) : SpanIDFromHex (hexEncode s) = some s := by
  simp [SpanIDFromHex, hexDecode_hexEncode s hsb, goCopyFixed_of_length 8 s hs]

theorem hexDigitChar_ne_dash (n : Nat) (h : n < 16) : hexDigitChar n ≠ '-' := by
  interval_cases n <;> decide

theorem dash_not_mem_byteToHex2 (b : Nat) : '-' ∉ byteToHex2 b := by
  intro hmem
  simp only [byteToHex2, List.mem_cons, List.mem_singleton, List.not_mem_nil] at hmem
  rcases hmem with h | h | h
  · exact hexDigitChar_ne_dash _ (Nat.mod_lt _ (by norm_num)) h.symm
  · exact hexDigitChar_ne_dash _ (Nat.mod_lt _ (by norm_num)) h.symm
  · exact h

theorem splitOnChar_format (t s : List Nat) (f : Bool) :
    splitOnChar '-' (FormatTraceparent t s f) =
      [['0', '0'], hexEncode t, hexEncode s,
        byteToHex2 (if f then SampledFlag else 0)] := by
  have : FormatTraceparent t s f =
      ['0', '0'] ++ '-' :: (hexEncode t ++ '-' :: (hexEncode s ++ '-' ::
        byteToHex2 (if f then SampledFlag else 0))) := by
    simp [FormatTraceparent]
  rw [this, splitOnChar_append '-' ['0', '0'] _ (by decide),
    splitOnChar_append '-' (hexEncode t) _ (dash_not_mem_hexEncode t),
    splitOnChar_append '-' (hexEncode s) _ (dash_not_mem_hexEncode s),
    splitOnChar_no_sep '-' _ (dash_not_mem_byteToHex2 _)]

theorem FormatTraceparent_length (t s : List Nat) (f : Bool)
    (ht : t.length = 16) (hs : s.length = 8) :
    (FormatTraceparent t s f).length = 55 := by
  simp [FormatTraceparent, byteToHex2, hexEncode_length, ht, hs]

/-- Success of `ParseTraceparent` implies every validation rule held: at
least four dash-fields, a 2-char case-insensitive-hex version other than
`ff`, a 32-char lowercase-hex non-all-zero trace-id, and a 16-char
lowercase-hex non-all-zero parent-id. -/
theorem parse_success_conditions (value : List Char) (t s : List Nat) (fl : Nat)
    (h : ParseTraceparent value = some (t, s, fl)) :
    4 ≤ (splitOnChar '-' value).length ∧
    ((splitOnChar '-' value).getD 0 []).length = 2 ∧
    isHex ((splitOnChar '-' value).getD 0 []) = true ∧
    (splitOnChar '-' value).getD 0 [] ≠ ['f', 'f'] ∧
    ((splitOnChar '-' value).getD 1 []).length = 32 ∧
    isLowercaseHex ((splitOnChar '-' value).getD 1 []) = true ∧
    TraceIDFromHex ((splitOnChar '-' value).getD 1 []) = some t ∧
    isZeroID t = false ∧
    ((splitOnChar '-' value).getD 2 []).length = 16 ∧
    isLowercaseHex ((splitOnChar '-' value).getD 2 []) = true ∧
    SpanIDFromHex ((splitOnChar '-' value).getD 2 []) = some s ∧
    isZeroID s = false := by
  simp only [ParseTraceparent, ite_none_eq_some, Option.bind_eq_some] at h
  obtain ⟨h1, h2, h3, h4, h5, h6, h7, tid, hT, h8, h9, h10, pid, hP, h11, h12,
    h13, fb, hF, hr⟩ := h
  injection hr with hr'
  obtain ⟨rfl, rfl, rfl⟩ := Prod.mk.injEq .. ▸ hr'
  simp only [fieldCount] at h2
  simp only [versionLen] at h3
  simp only [traceIDLen] at h6
  simp only [spanIDLen] at h9
  rw [Bool.not_eq_true] at h8 h11
  exact ⟨by omega, by omega, not_not.mp h4, h5, by omega, not_not.mp h7, hT,
    h8, by omega, not_not.mp h10, hP, h11⟩

/-- The trace ID of the W3C example header, as bytes. -/
def exampleTraceID : List Nat :=
  [10, 247, 101, 25, 22, 205, 67, 221, 132, 72, 235, 33, 28, 128, 49, 156]

/-- The span ID of the W3C example header, as bytes. -/
def exampleSpanID : List Nat :=
  [183, 173, 107, 113, 105, 32, 51, 49]

/-- C1: Traceparent round-trip — for every non-all-zero 16-byte trace ID
`t`, non-all-zero 8-byte span ID `s` and sampled flag `f`,
`ParseTraceparent (FormatTraceparent t s f)` succeeds and returns `t`,
`s`, and a flags byte whose bit 0 equals `f`. -/
theorem traceparent_roundtrip (t s : List Nat) (f : Bool)
    (ht : t.length = 16) (htb : ∀ b ∈ t, b < 256) (htz : isZeroID t = false)
    (hs : s.length = 8) (hsb : ∀ b ∈ s, b < 256) (hsz : isZeroID s = false) :
    ParseTraceparent (FormatTraceparent t s f) =
      some (t, s, if f then SampledFlag else 0) ∧
    ((if f then SampledFlag else 0) % 2 = 1 ↔ f = true) := by
  refine ⟨?_, by cases f <;> simp [SampledFlag]⟩
  have hlen := FormatTraceparent_length t s f ht hs
  have hsplit := splitOnChar_format t s f
  have htfrom := TraceIDFromHex_hexEncode t ht htb
  have hsfrom := SpanIDFromHex_hexEncode s hs hsb
  have htlen : (hexEncode t).length = 32 := by rw [hexEncode_length, ht]
  have hslen : (hexEncode s).length = 16 := by rw [hexEncode_length, hs]
  have htlower := isLowercaseHex_hexEncode t
  have hslower := isLowercaseHex_hexEncode s
  cases f with
  | false =>
    have hfl : byteToHex2 0 = ['0', '0'] := by decide
    simp only [ParseTraceparent, hlen, hsplit, if_false, Bool.false_eq_true,
      reduceIte, hfl]
    simp [minLength, versionLen, traceIDLen, spanIDLen, flagsLen, fieldCount,
      htlen, hslen, htlower, hslower, htfrom, hsfrom, htz, hsz,
      isHex, isHexChar, hexDecode, fromHexChar]
  | true =>
    have hfl : byteToHex2 SampledFlag = ['0', '1'] := by decide
    simp only [ParseTraceparent, hlen, hsplit, reduceIte, hfl]
    simp [minLength, versionLen, traceIDLen, spanIDLen, flagsLen, fieldCount,
      htlen, hslen, htlower, hslower, htfrom, hsfrom, htz, hsz, SampledFlag,
      isHex, isHexChar, hexDecode, fromHexChar]

/-- Witness for C1 at the W3C example identifiers with `f = true`. -/
theorem traceparent_roundtrip_witness :
    ParseTraceparent (FormatTraceparent exampleTraceID exampleSpanID true) =
      some (exampleTraceID, exampleSpanID, if true then SampledFlag else 0) ∧
    ((if true then SampledFlag else (0 : Nat)) % 2 = 1 ↔ true = true) :=
  traceparent_roundtrip exampleTraceID exampleSpanID true (by decide)
    (by decide) (by decide) (by decide) (by decide) (by decide)

/-- C2: `ParseTraceparent` rejection/tolerance — whenever parsing succeeds,
the trace-id field was exactly 32 lowercase-hex characters decoding to a
non-all-zero value, the parent-id field exactly 16 lowercase-hex characters
decoding to a non-all-zero value, and the version field was 2 hex characters
other than `ff` (contrapositive: violating any of these rules, including
uppercase hex in either identifier field, makes parsing fail); and the
concrete input with unrecognized version `01` and one extra trailing
dash-field still parses successfully, returning its trace-id, parent-id and
flags. -/
theorem parseTraceparent_rejects_and_tolerates :
    (∀ (value : List Char) (t s : List Nat) (fl : Nat),
      ParseTraceparent value = some (t, s, fl) →
        ((splitOnChar '-' value).getD 1 []).length = 32 ∧
        isLowercaseHex ((splitOnChar '-' value).getD 1 []) = true ∧
        TraceIDFromHex ((splitOnChar '-' value).getD 1 []) = some t ∧
        isZeroID t = false ∧
        ((splitOnChar '-' value).getD 2 []).length = 16 ∧
        isLowercaseHex ((splitOnChar '-' value).getD 2 []) = true ∧
        SpanIDFromHex ((splitOnChar '-' value).getD 2 []) = some s ∧
        isZeroID s = false ∧
        ((splitOnChar '-' value).getD 0 []).length = 2 ∧
        isHex ((splitOnChar '-' value).getD 0 []) = true ∧
        (splitOnChar '-' value).getD 0 [] ≠ ['f', 'f']) ∧
    ParseTraceparent
        "01-0af7651916cd43dd8448eb211c80319c-b7ad6b7169203331-01-extra".toList =
      some (exampleTraceID, exampleSpanID, 1) := by
  constructor
  · intro value t s fl h
    obtain ⟨_, c2, c3, c4, c5, c6, c7, c8, c9, c10, c11, c12⟩ :=
      parse_success_conditions value t s fl h
    exact ⟨c5, c6, c7, c8, c9, c10, c11, c12, c2, c3, c4⟩
  · rfl

/-- Witness for C2: the success-implies-validity direction applied at the
standard valid header. -/
theorem parseTraceparent_rejects_and_tolerates_witness :
    ((splitOnChar '-'
        "00-0af7651916cd43dd8448eb211c80319c-b7ad6b7169203331-01".toList).getD
        1 []).length = 32 :=
  (parseTraceparent_rejects_and_tolerates.1
    "00-0af7651916cd43dd8448eb211c80319c-b7ad6b7169203331-01".toList
    exampleTraceID exampleSpanID 1 (by rfl)).1

/-! ## W3C tracestate codec (`trace/w3c/w3c.go`) -/

def MaxTracestateEntries : Nat := 32
def MaxTracestateKeyLen : Nat := 256
def MaxTracestateValueLen : Nat := 256

/-- `unicode.IsSpace` (the exact character set Go's `strings.TrimSpace`
trims). -/
def goIsSpace (c : Char) : Bool :=
  (c.toNat = 0x20) || (0x9 ≤ c.toNat && c.toNat ≤ 0xD) ||
  (c.toNat = 0x85) || (c.toNat = 0xA0) || (c.toNat = 0x1680) ||
  (0x2000 ≤ c.toNat && c.toNat ≤ 0x200A) || (c.toNat = 0x2028) ||
  (c.toNat = 0x2029) || (c.toNat = 0x202F) || (c.toNat = 0x205F) ||
  (c.toNat = 0x3000)

/-- Go `strings.TrimSpace`: drop whitespace from both ends. -/
def trimSpace (s : List Char) : List Char :=
  ((s.dropWhile goIsSpace).reverse.dropWhile goIsSpace).reverse

/-- Split at the first occurrence of `sep`, if any. -/
def splitFirst (sep : Char) : List Char → Option (List Char × List Char)
  | [] => none
  | c :: rest =>
    if c = sep then some ([], rest)
    else
      match splitFirst sep rest with
      | none => none
      | some (a, b) => some (c :: a, b)

/-- Go `strings.SplitN(s, sep, 2)` for a one-character separator: one part if
`sep` is absent, otherwise the part before the first `sep` and all of the
rest. -/
def splitN2 (sep : Char) (s : List Char) : List (List Char) :=
  match splitFirst sep s with
  | none => [s]
  | some (a, b) => [a, b]

/-- `w3c.isValidSimpleKey` character set: lowercase alphanumeric plus
`_ - * /`. -/
def isValidSimpleKeyChar (c : Char) : Bool :=
  (('a' ≤ c) && (c ≤ 'z')) || (('0' ≤ c) && (c ≤ '9')) ||
  (c = '_') || (c = '-') || (c = '*') || (c = '/')

/-- `w3c.isValidSimpleKey`. -/
def isValidSimpleKey (key : List Char) : Bool :=
  !key.isEmpty && key.all isValidSimpleKeyChar

/-- `w3c.IsValidTracestateKey`: simple key, or `tenant@system` with both
halves simple. -/
def IsValidTracestateKey (key : List Char) : Bool :=
  if key.isEmpty || key.length > MaxTracestateKeyLen then false
  else if key.contains '@' then
    match splitOnChar '@' key with
    | [a, b] => isValidSimpleKey a && isValidSimpleKey b
    | _ => false
  else isValidSimpleKey key

/-- `w3c.IsValidTracestateValue`: non-empty printable ASCII without comma
or equals, at most 256 characters. -/
def IsValidTracestateValue (value : List Char) : Bool :=
  if value.isEmpty || value.length > MaxTracestateValueLen then false
  else value.all fun c =>
    (0x20 ≤ c.toNat) && (c.toNat ≤ 0x7E) && !(c = ',') && !(c = '=')

/-- A single tracestate `key=value` entry (`w3c.Entry`). -/
structure Entry where
  Key : List Char
  Value : List Char
deriving DecidableEq, Repr

/-- The body of Go's reverse loop in `ParseTracestate` for one raw part:
trim, split on the first `=`, trim both halves, validate. -/
def parsePartE (p : List Char) : Option Entry :=
  let part := trimSpace p
  match splitN2 '=' part with
  | [k0, v0] =>
    let key := trimSpace k0
    let value := trimSpace v0
    if IsValidTracestateKey key && IsValidTracestateValue value then
      some ⟨key, value⟩
    else none
  | _ => none

/-- Go's reverse loop in `ParseTracestate`: the recursive call handles the
parts to the right (which the loop visits first), then the head part is
processed against the `seen` set accumulated from them.  Returns the
entry list and the seen-key set. -/
def tracestateLoop : List (List Char) → Option (List Entry × List (List Char))
  | [] => some ([], [])
  | p :: rest =>
    match tracestateLoop rest with
    | none => none
    | some (entries, seen) =>
      let part := trimSpace p
      if part.isEmpty then some (entries, seen)
      else
        match splitN2 '=' part with
        | [k0, v0] =>
          let key := trimSpace k0
          let value := trimSpace v0
          if ¬ IsValidTracestateKey key then none
          else if ¬ IsValidTracestateValue value then none
          else if key ∈ seen then some (entries, seen)
          else some (⟨key, value⟩ :: entries, key :: seen)
        | _ => none

/-- `w3c.ParseTracestate`: split on commas, reject more than 32 parts,
process parts in reverse so the last occurrence of a duplicate key wins. -/
def ParseTracestate (value : List Char) : Option (List Entry) :=
  if value.isEmpty then some []
  else
    let parts := splitOnChar ',' value
    if parts.length > MaxTracestateEntries then none
    else (tracestateLoop parts).map Prod.fst

/-- Modelled from the spec's description of the duplicate-key policy: keep,
for each key, only its last occurrence, in the original position of that
last occurrence (an entry survives iff its key does not reappear later). -/
def lastWins : List Entry → List Entry
  | [] => []
  | e :: rest =>
    if ∃ e2 ∈ rest, e2.Key = e.Key then lastWins rest
    else e :: lastWins rest


theorem lastWins_subset (l : List Entry) : ∀ e ∈ lastWins l, e ∈ l := by
  induction l with
  | nil => simp [lastWins]
  | cons e rest ih =>
    by_cases h : ∃ e2 ∈ rest, e2.Key = e.Key
    · simp only [lastWins, if_pos h]
      exact fun e2 he2 => List.mem_cons_of_mem e (ih e2 he2)
    · simp only [lastWins, if_neg h, List.mem_cons]
      rintro e2 (rfl | he2)
      · exact Or.inl rfl
      · exact Or.inr (ih e2 he2)

theorem lastWins_mem_key (l : List Entry) (k : List Char) :
    (∃ e ∈ lastWins l, e.Key = k) ↔ (∃ e ∈ l, e.Key = k) := by
  constructor
  · rintro ⟨e2, he2, hk⟩
    exact ⟨e2, lastWins_subset l e2 he2, hk⟩
  · induction l with
    | nil => simp
    | cons e rest ih =>
      rintro ⟨e2, he2, hk⟩
      by_cases h : ∃ e2 ∈ rest, e2.Key = e.Key
      · simp only [lastWins, if_pos h]
        rcases List.mem_cons.mp he2 with rfl | hmem
        · obtain ⟨e3, he3, hk3⟩ := h
          exact ih ⟨e3, he3, by rw [hk3, hk]⟩
        · exact ih ⟨e2, hmem, hk⟩
      · simp only [lastWins, if_neg h]
        rcases List.mem_cons.mp he2 with rfl | hmem
        · exact ⟨e2, List.mem_cons_self _ _, hk⟩
        · obtain ⟨e3, he3, hk3⟩ := ih ⟨e2, hmem, hk⟩
          exact ⟨e3, List.mem_cons_of_mem _ he3, hk3⟩

theorem lastWins_keys_nodup (l : List Entry) :
    ((lastWins l).map Entry.Key).Nodup := by
  induction l with
  | nil => simp [lastWins]
  | cons e rest ih =>
    by_cases h : ∃ e2 ∈ rest, e2.Key = e.Key
    · simpa [lastWins, if_pos h] using ih
    · simp only [lastWins, if_neg h, List.map_cons, List.nodup_cons]
      refine ⟨?_, ih⟩
      intro hmem
      obtain ⟨e2, he2, hk⟩ := List.mem_map.mp hmem
      exact h ((lastWins_mem_key rest e.Key).mp ⟨e2, he2, hk⟩)

theorem lastWins_find? (l : List Entry) (k : List Char) :
    (lastWins l).find? (fun e => e.Key = k) =
      l.reverse.find? (fun e => e.Key = k) := by
  induction l with
  | nil => simp [lastWins]
  | cons e rest ih =>
    rw [List.reverse_cons, List.find?_append]
    by_cases h : ∃ e2 ∈ rest, e2.Key = e.Key
    · rw [lastWins, if_pos h, ih]
      by_cases hk : e.Key = k
      · obtain ⟨e3, he3, hk3⟩ := h
        have : rest.reverse.find? (fun e => decide (e.Key = k)) ≠ none := by
          rw [Ne, List.find?_eq_none]
          push_neg
          exact ⟨e3, List.mem_reverse.mpr he3, by simp [hk3, hk]⟩
        obtain ⟨w, hw⟩ := Option.ne_none_iff_exists'.mp this
        simp [hw]
      · have : (List.find? (fun e => decide (e.Key = k)) [e]) = none := by
          simp [List.find?, hk]
        simp [this]
    · rw [lastWins, if_neg h]
      by_cases hk : e.Key = k
      · have hnone : rest.reverse.find? (fun e => decide (e.Key = k)) = none := by
          rw [List.find?_eq_none]
          intro e2 he2 hdec
          exact h ⟨e2, List.mem_reverse.mp he2, by
            simp only [decide_eq_true_eq] at hdec
            rw [hdec, hk]⟩
        rw [List.find?, hnone]
        simp [hk]
      · rw [List.find?_cons_of_neg _ (by simp [hk]), ih]
        have : (List.find? (fun e => decide (e.Key = k)) [e]) = none := by
          simp [List.find?, hk]
        simp [this]

theorem splitN2_shape (sep : Char) (s : List Char) :
    (∃ a, splitN2 sep s = [a]) ∨ (∃ a b, splitN2 sep s = [a, b]) := by
  unfold splitN2
  cases splitFirst sep s with
  | none => exact Or.inl ⟨s, rfl⟩
  | some ab => exact Or.inr ⟨ab.1, ab.2, rfl⟩

theorem tracestateLoop_eq (ps : List (List Char))
    (h : ∀ p ∈ ps, (parsePartE p).isSome) :
    tracestateLoop ps =
      some (lastWins (ps.filterMap parsePartE),
        (lastWins (ps.filterMap parsePartE)).map Entry.Key) := by
  induction ps with
  | nil => rfl
  | cons p rest ih =>
    have hp : (parsePartE p).isSome := h p (List.mem_cons_self _ _)
    have hrest : ∀ q ∈ rest, (parsePartE q).isSome :=
      fun q hq => h q (List.mem_cons_of_mem _ hq)
    obtain ⟨e, he⟩ := Option.isSome_iff_exists.mp hp
    rcases splitN2_shape '=' (trimSpace p) with ⟨a, hsp⟩ | ⟨k0, v0, hsp⟩
    · simp [parsePartE, hsp] at he
    · by_cases hv : (IsValidTracestateKey (trimSpace k0) &&
        IsValidTracestateValue (trimSpace v0)) = true
      case neg => simp [parsePartE, hsp, hv] at he
      obtain ⟨hvk, hvv⟩ := Bool.and_eq_true .. |>.mp hv
      have he' : e = ⟨trimSpace k0, trimSpace v0⟩ := by
        simp [parsePartE, hsp, hv] at he
        exact he.symm
      subst he'
      have hne : trimSpace p ≠ [] := by
        intro h0
        rw [h0] at hsp
        simp [splitN2, splitFirst] at hsp
      have hempty : (trimSpace p).isEmpty = false := by
        cases htp : trimSpace p with
        | nil => exact absurd htp hne
        | cons c t => rfl
      have hKV : (p :: rest).filterMap parsePartE =
          ⟨trimSpace k0, trimSpace v0⟩ :: rest.filterMap parsePartE := by
        simp [List.filterMap_cons, he]
      simp only [tracestateLoop, ih hrest, hempty, Bool.false_eq_true,
        if_false, hsp, hvk, hvv, not_true, hKV]
      by_cases hks : ∃ e2 ∈ rest.filterMap parsePartE,
        e2.Key = trimSpace k0
      · have hmem : trimSpace k0 ∈
            (lastWins (rest.filterMap parsePartE)).map Entry.Key := by
          obtain ⟨e3, he3, hk3⟩ :=
            (lastWins_mem_key (rest.filterMap parsePartE) (trimSpace k0)).mpr hks
          exact List.mem_map.mpr ⟨e3, he3, hk3⟩
        rw [if_pos hmem, lastWins, if_pos hks]
      · have hmem : trimSpace k0 ∉
            (lastWins (rest.filterMap parsePartE)).map Entry.Key := by
          intro hmem
          obtain ⟨e3, he3, hk3⟩ := List.mem_map.mp hmem
          exact hks ((lastWins_mem_key _ _).mp ⟨e3, he3, hk3⟩)
        rw [if_neg hmem, lastWins, if_neg hks]
        simp

theorem tracestateLoop_none (ps : List (List Char))
    (hbad : ∃ p ∈ ps, (trimSpace p).isEmpty = false ∧ parsePartE p = none) :
    tracestateLoop ps = none := by
  induction ps with
  | nil => simp at hbad
  | cons p rest ih =>
    obtain ⟨q, hq, hqe, hqn⟩ := hbad
    rcases List.mem_cons.mp hq with rfl | hqrest
    · cases hrest : tracestateLoop rest with
      | none => simp [tracestateLoop, hrest]
      | some es =>
        obtain ⟨entries, seen⟩ := es
        rcases splitN2_shape '=' (trimSpace q) with ⟨a, hsp⟩ | ⟨k0, v0, hsp⟩
        · simp [tracestateLoop, hrest, hqe, hsp]
        · simp only [parsePartE, hsp] at hqn
          by_cases hv : (IsValidTracestateKey (trimSpace k0) &&
              IsValidTracestateValue (trimSpace v0)) = true
          · rw [if_pos hv] at hqn
            exact Option.noConfusion hqn
          · cases hk2 : IsValidTracestateKey (trimSpace k0) with
            | true =>
              cases hv2 : IsValidTracestateValue (trimSpace v0) with
              | true => exact absurd (by rw [hk2, hv2]; rfl) hv
              | false => simp [tracestateLoop, hrest, hqe, hsp, hk2, hv2]
            | false => simp [tracestateLoop, hrest, hqe, hsp, hk2]
    · simp [tracestateLoop, ih ⟨q, hqrest, hqe, hqn⟩]

theorem parsePartE_nil : parsePartE [] = none := by decide

theorem ParseTracestate_too_many (value : List Char)
    (h : 32 < (splitOnChar ',' value).length) :
    ParseTracestate value = none := by
  have hne : value.isEmpty = false := by
    cases value with
    | nil => simp [splitOnChar] at h
    | cons c t => rfl
  simp [ParseTracestate, hne, MaxTracestateEntries, h]

theorem ParseTracestate_ok (value : List Char)
    (h32 : (splitOnChar ',' value).length ≤ 32)
    (hall : ∀ p ∈ splitOnChar ',' value, (parsePartE p).isSome) :
    ParseTracestate value =
      some (lastWins ((splitOnChar ',' value).filterMap parsePartE)) := by
  have hne : value.isEmpty = false := by
    cases hv : value with
    | nil =>
      exfalso
      have := hall [] (by simp [hv, splitOnChar])
      rw [parsePartE_nil] at this
      simp at this
    | cons c t => rfl
  rw [ParseTracestate]
  simp only [hne, Bool.false_eq_true, if_false, MaxTracestateEntries]
  rw [if_neg (by omega), tracestateLoop_eq _ hall]
  rfl

theorem ParseTracestate_invalid (value : List Char)
    (hbad : ∃ p ∈ splitOnChar ',' value,
      (trimSpace p).isEmpty = false ∧ parsePartE p = none) :
    ParseTracestate value = none := by
  have hne : value.isEmpty = false := by
    cases hv : value with
    | nil =>
      exfalso
      obtain ⟨q, hq, hqe, _⟩ := hbad
      rw [hv] at hq
      have : q = [] := by simpa [splitOnChar] using hq
      rw [this] at hqe
      simp [trimSpace] at hqe
    | cons c t => rfl
  rw [ParseTracestate]
  simp only [hne, Bool.false_eq_true, if_false, MaxTracestateEntries]
  by_cases h32 : (splitOnChar ',' value).length > 32
  · rw [if_pos h32]
  · rw [if_neg h32, tracestateLoop_none _ hbad]
    rfl


theorem hexDecode_eq_none_iff (s : List Char) :
    hexDecode s = none ↔
      s.length % 2 = 1 ∨ ∃ c ∈ s, fromHexChar c = none := by
  induction s using hexDecode.induct with
  | case1 => simp [hexDecode]
  | case2 c => simp [hexDecode]
  | case3 hi lo rest a b bs hrest hlo hhi ih =>
    have hrest_ne : hexDecode rest ≠ none := by simp [hrest]
    have hnr : ¬(rest.length % 2 = 1 ∨ ∃ c ∈ rest, fromHexChar c = none) :=
      fun hr => hrest_ne (ih.mpr hr)
    push_neg at hnr
    constructor
    · intro hcon
      exfalso
      simp [hexDecode, hhi, hlo, hrest] at hcon
    · rintro (hl | ⟨c, hc, hcn⟩)
      · exfalso
        simp only [List.length_cons] at hl
        have := hnr.1
        omega
      · exfalso
        rcases List.mem_cons.mp hc with rfl | hc2
        · rw [hhi] at hcn; exact Option.noConfusion hcn
        · rcases List.mem_cons.mp hc2 with rfl | hc3
          · rw [hlo] at hcn; exact Option.noConfusion hcn
          · exact hnr.2 c hc3 hcn
  | case4 hi lo rest hfail ih =>
    have hlhs : hexDecode (hi :: lo :: rest) = none := by
      cases h1 : fromHexChar hi with
      | none => simp [hexDecode, h1]
      | some a =>
        cases h2 : fromHexChar lo with
        | none => simp [hexDecode, h1, h2]
        | some b =>
          cases h3 : hexDecode rest with
          | none => simp [hexDecode, h1, h2, h3]
          | some bs => exact absurd (hfail a b bs h1 h2 h3) not_false
    have hrhs : (hi :: lo :: rest).length % 2 = 1 ∨
        ∃ c ∈ hi :: lo :: rest, fromHexChar c = none := by
      cases h1 : fromHexChar hi with
      | none => exact Or.inr ⟨hi, List.mem_cons_self _ _, h1⟩
      | some a =>
        cases h2 : fromHexChar lo with
        | none =>
          exact Or.inr ⟨lo, List.mem_cons_of_mem _ (List.mem_cons_self _ _), h2⟩
        | some b =>
          cases h3 : hexDecode rest with
          | none =>
            rcases ih.mp h3 with hl | ⟨c, hc, hcn⟩
            · left; simp only [List.length_cons]; omega
            · exact Or.inr ⟨c,
                List.mem_cons_of_mem _ (List.mem_cons_of_mem _ hc), hcn⟩
          | some bs => exact absurd (hfail a b bs h1 h2 h3) not_false
    rw [hlhs]
    simpa using hrhs

theorem goCopyFixed_length (n : Nat) (b : List Nat) :
    (goCopyFixed n b).length = n := by
  simp [goCopyFixed]
  omega


/-- C7 counterexample: `TraceIDFromHex`/`SpanIDFromHex` accept the valid-hex
input `"ab"` although it is not 32 (resp. 16) hex characters, zero-padding
the missing bytes — refuting the claim that wrong-length input fails. -/
theorem fromHex_wrong_length_accepted :
    TraceIDFromHex "ab".toList = some (171 :: List.replicate 15 0) ∧
    ("ab".toList).length ≠ 32 ∧
    SpanIDFromHex "ab".toList = some (171 :: List.replicate 7 0) ∧
    ("ab".toList).length ≠ 16 := by
  refine ⟨by rfl, by decide, by rfl, by decide⟩

/-- C7 (amended): `TraceIDFromHex`/`SpanIDFromHex` fail exactly when the
input is not valid hex (odd length or a non-hex character); any valid-hex
input of any length is accepted, with the decoded bytes copied into the
16-byte (resp. 8-byte) identifier (truncated/zero-padded); an all-zero
identifier is not rejected. -/
theorem fromHex_decode_only (s : List Char) :
    (TraceIDFromHex s = none ↔
      s.length % 2 = 1 ∨ ∃ c ∈ s, fromHexChar c = none) ∧
    (SpanIDFromHex s = none ↔
      s.length % 2 = 1 ∨ ∃ c ∈ s, fromHexChar c = none) ∧
    (∀ t, TraceIDFromHex s = some t → t.length = 16) ∧
    (∀ t, SpanIDFromHex s = some t → t.length = 8) ∧
    TraceIDFromHex (List.replicate 32 '0') = some (List.replicate 16 0) ∧
    SpanIDFromHex (List.replicate 16 '0') = some (List.replicate 8 0) := by
  refine ⟨?_, ?_, ?_, ?_, by rfl, by rfl⟩
  · rw [← hexDecode_eq_none_iff]
    cases hd : hexDecode s <;> simp [TraceIDFromHex, hd]
  · rw [← hexDecode_eq_none_iff]
    cases hd : hexDecode s <;> simp [SpanIDFromHex, hd]
  · intro t ht
    cases hd : hexDecode s with
    | none => rw [TraceIDFromHex, hd] at ht; exact Option.noConfusion ht
    | some b =>
      rw [TraceIDFromHex, hd] at ht
      injection ht with ht'
      rw [← ht']
      exact goCopyFixed_length 16 b
  · intro t ht
    cases hd : hexDecode s with
    | none => rw [SpanIDFromHex, hd] at ht; exact Option.noConfusion ht
    | some b =>
      rw [SpanIDFromHex, hd] at ht
      injection ht with ht'
      rw [← ht']
      exact goCopyFixed_length 8 b

/-- Witness for C7 (amended) at the concrete input `"ab"`. -/
theorem fromHex_decode_only_witness :
    (171 :: List.replicate 15 0 : List Nat).length = 16 :=
  (fromHex_decode_only "ab".toList).2.2.1 (171 :: List.replicate 15 0) (by rfl)

/-- C5: `ParseTracestate` — an input splitting into more than 32
comma-separated parts fails; a part (with non-empty trim) whose key or
value is invalid fails the whole parse; and when every part is a valid
`key=value` entry and there are at most 32 parts, the result is exactly
the last-occurrence-wins sublist: each distinct key exactly once
(`Nodup` keys), each key mapped to the value of its last occurrence
(`find?` equals `find?` on the reversed input), surviving entries in the
original relative order of their last occurrences (`lastWins`). -/
theorem parseTracestate_spec :
    (∀ value : List Char, 32 < (splitOnChar ',' value).length →
      ParseTracestate value = none) ∧
    (∀ value : List Char,
      (∃ p ∈ splitOnChar ',' value,
        (trimSpace p).isEmpty = false ∧ parsePartE p = none) →
      ParseTracestate value = none) ∧
    (∀ value : List Char,
      (splitOnChar ',' value).length ≤ 32 →
      (∀ p ∈ splitOnChar ',' value, (parsePartE p).isSome) →
      ParseTracestate value =
        some (lastWins ((splitOnChar ',' value).filterMap parsePartE)) ∧
      ((lastWins ((splitOnChar ',' value).filterMap parsePartE)).map
          Entry.Key).Nodup ∧
      ∀ k, (lastWins ((splitOnChar ',' value).filterMap parsePartE)).find?
            (fun e => e.Key = k) =
          ((splitOnChar ',' value).filterMap parsePartE).reverse.find?
            (fun e => e.Key = k)) := by
  refine ⟨ParseTracestate_too_many, ParseTracestate_invalid, ?_⟩
  intro value h32 hall
  exact ⟨ParseTracestate_ok value h32 hall, lastWins_keys_nodup _,
    fun k => lastWins_find? _ k⟩

/-- Witness for C5 at the spec's own example `"a=1,b=2,a=3"`. -/
theorem parseTracestate_spec_witness :
    ParseTracestate "a=1,b=2,a=3".toList =
      some (lastWins ((splitOnChar ',' "a=1,b=2,a=3".toList).filterMap
        parsePartE)) :=
  (parseTracestate_spec.2.2 "a=1,b=2,a=3".toList (by decide) (by decide)).1

/-! ## Attribute sets (`attr` package) -/

/-- The kinds of `attr.Value` used by the tracing layer. -/
inductive AttrValue where
  | str (s : String)
  | int (i : Int)
  | bool (b : Bool)
deriving DecidableEq, Repr

/-- `attr.Attr`: a key with a typed value. -/
structure Attr where
  Key : String
  Value : AttrValue
deriving DecidableEq, Repr

/-- After sorting by key, collapse each run of equal keys to its last
element (Go's dedup loop in `attr.NewSet`). -/
def dedupKeepLast : List Attr → List Attr
  | [] => []
  | [a] => [a]
  | a :: b :: rest =>
    if a.Key = b.Key then dedupKeepLast (b :: rest)
    else a :: dedupKeepLast (b :: rest)

/-- `attr.Set`: attributes sorted by key, deduplicated last-wins. -/
structure AttrSet where
  attrs : List Attr
deriving DecidableEq, Repr

/-- `attr.NewSet`: sort by key and deduplicate (last value wins). -/
def NewSet (attrs : List Attr) : AttrSet :=
  if attrs.isEmpty then ⟨[]⟩
  else ⟨dedupKeepLast (attrs.mergeSort fun x y => x.Key ≤ y.Key)⟩

/-- `attr.Set.Merge`: merge additional attributes, `other` winning on equal
keys. -/
def AttrSet.Merge (s : AttrSet) (other : List Attr) : AttrSet :=
  if other.isEmpty then s
  else if s.attrs.isEmpty then NewSet other
  else NewSet (s.attrs ++ other)

/-! ## Span (`trace/span.go`)

Time instants are explicit `Nat` parameters; the Go zero `time.Time`
(`IsZero`) is modelled as the instant `0`.  `hasTracer` models
`span.tracer != nil`. -/

/-- `trace.SpanKind`. -/
inductive SpanKind where
  | internal | server | client | producer | consumer
deriving DecidableEq, Repr

/-- `trace.SpanStatus`. -/
inductive SpanStatus where
  | unset | ok | error
deriving DecidableEq, Repr

/-- `trace.Event`. -/
structure Event where
  Name : String
  Time : Nat
  Attrs : AttrSet
deriving DecidableEq, Repr

/-- `trace.Span` (the mutex is a concurrency artifact with no sequential
content; mutation is modelled functionally). -/
structure Span where
  name : String
  traceID : List Nat
  spanID : List Nat
  parentID : List Nat
  kind : SpanKind
  startTime : Nat
  endTime : Nat
  attrs : AttrSet
  events : List Event
  status : SpanStatus
  statusMsg : String
  tracestate : List Char
  hasTracer : Bool
  ended : Bool
deriving DecidableEq, Repr

/-- `Span.SetAttr`: merge attributes; no-op once ended. -/
def Span.SetAttr (s : Span) (attrs : List Attr) : Span :=
  if s.ended then s else { s with attrs := s.attrs.Merge attrs }

/-- `Span.AddEvent`: append a timestamped event; no-op once ended. -/
def Span.AddEvent (s : Span) (name : String) (now : Nat)
    (attrs : List Attr) : Span :=
  if s.ended then s
  else { s with events := s.events ++ [⟨name, now, NewSet attrs⟩] }

/-- `Span.RecordError`: no-op on `nil` error or once ended; otherwise
appends an `exception` event and sets error status. -/
def Span.RecordError (s : Span) (err : Option String) (now : Nat)
    (attrs : List Attr) : Span :=
  match err with
  | none => s
  | some msg =>
    if s.ended then s
    else
      { s with
        events := s.events ++ [⟨"exception", now,
          NewSet ([⟨"exception.type", .str "error"⟩,
            ⟨"exception.message", .str msg⟩] ++ attrs)⟩],
        status := .error,
        statusMsg := msg }

/-- `Span.SetStatus`: no-op once ended. -/
def Span.SetStatus (s : Span) (status : SpanStatus) (msg : String) : Span :=
  if s.ended then s else { s with status := status, statusMsg := msg }

/-- `Span.End`: on the first call records the end time, marks the span
ended, and (when the span belongs to a tracer) hands it to
`tracer.export`; a second call returns unchanged.  The boolean reports
whether the span was handed off for export. -/
def Span.End (s : Span) (now : Nat) : Span × Bool :=
  if s.ended then (s, false)
  else ({ s with endTime := now, ended := true }, s.hasTracer)

/-- `Span.IsRecording`. -/
def Span.IsRecording (s : Span) : Bool :=
  !s.ended

/-- `Span.Duration`: `time.Since(start)` when `endTime.IsZero()`, else
`endTime.Sub(startTime)`. -/
def Span.Duration (s : Span) (now : Nat) : Int :=
  if s.endTime = 0 then (now : Int) - (s.startTime : Int)
  else (s.endTime : Int) - (s.startTime : Int)

/-! ## Sampler (`trace/sampler.go`) -/

/-- `trace.SamplingDecision`. -/
inductive SamplingDecision where
  | drop | record | recordAndSample
deriving DecidableEq, Repr

/-- `trace.SamplingResult`. -/
structure SamplingResult where
  Decision : SamplingDecision
deriving DecidableEq, Repr

/-- `trace.Sampler` as a pure decision function
`(traceID, name, parentSampled) -> result`. -/
def Sampler : Type :=
  List Nat → String → Bool → SamplingResult

/-- `trace.AlwaysSampler`. -/
def AlwaysSampler : Sampler :=
  fun _ _ _ => ⟨.recordAndSample⟩

/-- `trace.NeverSampler`. -/
def NeverSampler : Sampler :=
  fun _ _ _ => ⟨.drop⟩

/-- `trace.ParentBasedSampler`: inherit `recordAndSample` from a sampled
parent, else delegate to the root sampler (drop when none). -/
def ParentBasedSampler (root : Option Sampler) : Sampler :=
  fun traceID name parentSampled =>
    if parentSampled then ⟨.recordAndSample⟩
    else
      match root with
      | some r => r traceID name parentSampled
      | none => ⟨.drop⟩

/-! ## Context plumbing (`trace/context.go`) and tracer (`trace/tracer.go`) -/

/-- The span slot of a `context.Context` (`spanContextKey`). -/
def Ctx : Type :=
  Option Span

/-- `trace.ContextWithSpan`. -/
def ContextWithSpan (_ctx : Ctx) (span : Span) : Ctx :=
  some span

/-- `trace.SpanFromContext`. -/
def SpanFromContext (ctx : Ctx) : Option Span :=
  ctx

/-- `trace.Tracer`: configuration fixed at construction.  `hasExporter`
models `tracer.exporter != nil`. -/
structure Tracer where
  serviceName : String
  sampler : Sampler
  hasExporter : Bool

/-- `trace.StartSpanOptions`. -/
structure StartSpanOptions where
  Kind : SpanKind := .internal
  Attrs : List Attr := []
  Parent : Option Span := none

/-- Steps 2–4 of `Tracer.Start`: resolve the parent (explicit option
before ambient context), the trace ID (inherited or `newTraceID`), the
parent ID, and the parent-sampled signal (`true` iff a parent span is
present). -/
def resolveStart (ctx : Ctx) (options : StartSpanOptions)
    (newTraceID : List Nat) : Option Span × List Nat × List Nat × Bool :=
  let parent :=
    match options.Parent with
    | some p => some p
    | none => SpanFromContext ctx
  match parent with
  | some p => (some p, p.traceID, p.spanID, true)
  | none => (none, newTraceID, List.replicate 8 0, false)

/-- `Tracer.Start`.  Randomness (`NewTraceID`/`NewSpanID`) and the clock
are explicit arguments.  On a `drop` decision, returns a fully formed
no-op span: fresh span ID, resolved parent ID, already ended, no tracer
back-reference (so `End` never exports). -/
def Tracer.Start (t : Tracer) (ctx : Ctx) (name : String)
    (options : StartSpanOptions) (newTraceID newSpanID : List Nat)
    (now : Nat) : Ctx × Span :=
  let r := resolveStart ctx options newTraceID
  let traceID := r.2.1
  let parentID := r.2.2.1
  let parentSampled := r.2.2.2
  let result := t.sampler traceID name parentSampled
  if result.Decision = .drop then
    let noopSpan : Span :=
      { name := name, traceID := traceID, spanID := newSpanID,
        parentID := parentID, kind := .internal, startTime := now,
        endTime := 0, attrs := ⟨[]⟩, events := [], status := .unset,
        statusMsg := "", tracestate := [], hasTracer := false,
        ended := true }
    (ContextWithSpan ctx noopSpan, noopSpan)
  else
    let span : Span :=
      { name := name, traceID := traceID, spanID := newSpanID,
        parentID := parentID, kind := options.Kind, startTime := now,
        endTime := 0, attrs := NewSet options.Attrs, events := [],
        status := .unset, statusMsg := "", tracestate := [],
        hasTracer := true, ended := false }
    (ContextWithSpan ctx span, span)


/-- C3: Span finalize-once — for every span, `End` marks the span ended
and records the end time; on an already-ended span `End` is a no-op that
never hands the span off again (export handoff happens at most once, on
the first `End` of a live span with a tracer); and once ended,
`SetAttr`, `AddEvent`, `SetStatus` and `RecordError` leave the span —
in particular its attribute set, event list and status — unchanged. -/
theorem span_finalize_once (s : Span) (now now' : Nat) (attrs : List Attr)
    (ename : String) (st : SpanStatus) (msg errMsg : String) :
    ((s.End now).1).ended = true ∧
    (s.ended = true → s.End now = (s, false)) ∧
    (s.ended = false →
      (s.End now).1.endTime = now ∧ (s.End now).2 = s.hasTracer) ∧
    (s.End now).1.End now' = ((s.End now).1, false) ∧
    (∀ u : Span, u.ended = true →
      u.SetAttr attrs = u ∧ u.AddEvent ename now' attrs = u ∧
      u.SetStatus st msg = u ∧ u.RecordError (some errMsg) now' attrs = u) := by
  refine ⟨?_, ?_, ?_, ?_, ?_⟩
  · cases hs : s.ended <;> simp [Span.End, hs]
  · intro h; simp [Span.End, h]
  · intro h; simp [Span.End, h]
  · cases hs : s.ended <;> simp [Span.End, hs]
  · intro u hu
    simp [Span.SetAttr, Span.AddEvent, Span.SetStatus, Span.RecordError, hu]

def sampleSpan : Span :=
  { name := "op", traceID := exampleTraceID, spanID := exampleSpanID,
    parentID := List.replicate 8 0, kind := .internal, startTime := 5,
    endTime := 0, attrs := ⟨[]⟩, events := [], status := .unset,
    statusMsg := "", tracestate := [], hasTracer := true, ended := false }

/-- Witness for C3: double `End` and post-`End` mutation on a concrete
span. -/
theorem span_finalize_once_witness :
    (sampleSpan.End 7).1.End 9 = ((sampleSpan.End 7).1, false) ∧
    ((sampleSpan.End 7).1).SetAttr [] = (sampleSpan.End 7).1 :=
  ⟨(span_finalize_once sampleSpan 7 9 [] "e" .ok "m" "err").2.2.2.1,
   ((span_finalize_once sampleSpan 7 9 [] "e" .ok "m" "err").2.2.2.2
     (sampleSpan.End 7).1
     (span_finalize_once sampleSpan 7 9 [] "e" .ok "m" "err").1).1⟩

/-- The no-op span `Tracer.Start` builds on a drop decision. -/
def droppedSpan (ctx : Ctx) (options : StartSpanOptions)
    (ntid nsid : List Nat) (name : String) (now : Nat) : Span :=
  { name := name, traceID := (resolveStart ctx options ntid).2.1,
    spanID := nsid, parentID := (resolveStart ctx options ntid).2.2.1,
    kind := .internal, startTime := now, endTime := 0, attrs := ⟨[]⟩,
    events := [], status := .unset, statusMsg := "", tracestate := [],
    hasTracer := false, ended := true }

theorem start_drop_eq (t : Tracer) (ctx : Ctx) (name : String)
    (options : StartSpanOptions) (ntid nsid : List Nat) (now : Nat)
    (hdrop : (t.sampler (resolveStart ctx options ntid).2.1 name
      (resolveStart ctx options ntid).2.2.2).Decision = .drop) :
    t.Start ctx name options ntid nsid now =
      (some (droppedSpan ctx options ntid nsid name now),
        droppedSpan ctx options ntid nsid name now) := by
  simp [Tracer.Start, hdrop, ContextWithSpan, droppedSpan]

/-- C4: Dropped-sample isolation — when the sampler decides `drop` for
the resolved start inputs, the span `Tracer.Start` returns carries the
freshly generated span ID and the resolved parent ID, is already ended
(`IsRecording` is immediately `false`), has no tracer back-reference, and
`End` on it is a no-op that never hands the span to the exporter. -/
theorem start_drop_isolated (t : Tracer) (ctx : Ctx) (name : String)
    (options : StartSpanOptions) (ntid nsid : List Nat) (now now' : Nat)
    (hdrop : (t.sampler (resolveStart ctx options ntid).2.1 name
      (resolveStart ctx options ntid).2.2.2).Decision = .drop) :
    ((t.Start ctx name options ntid nsid now).2).spanID = nsid ∧
    ((t.Start ctx name options ntid nsid now).2).parentID =
      (resolveStart ctx options ntid).2.2.1 ∧
    ((t.Start ctx name options ntid nsid now).2).ended = true ∧
    ((t.Start ctx name options ntid nsid now).2).IsRecording = false ∧
    ((t.Start ctx name options ntid nsid now).2).hasTracer = false ∧
    ((t.Start ctx name options ntid nsid now).2).End now' =
      ((t.Start ctx name options ntid nsid now).2, false) := by
  simp [Tracer.Start, hdrop, Span.IsRecording, Span.End]

/-- Witness for C4 with the `NeverSampler`. -/
theorem start_drop_isolated_witness :
    ((Tracer.Start ⟨"svc", NeverSampler, true⟩ none "op" {} exampleTraceID
      exampleSpanID 5).2).ended = true ∧
    ((Tracer.Start ⟨"svc", NeverSampler, true⟩ none "op" {} exampleTraceID
        exampleSpanID 5).2).End 7 =
      ((Tracer.Start ⟨"svc", NeverSampler, true⟩ none "op" {} exampleTraceID
        exampleSpanID 5).2, false) :=
  ⟨(start_drop_isolated ⟨"svc", NeverSampler, true⟩ none "op" {}
      exampleTraceID exampleSpanID 5 7 rfl).2.2.1,
   (start_drop_isolated ⟨"svc", NeverSampler, true⟩ none "op" {}
      exampleTraceID exampleSpanID 5 7 rfl).2.2.2.2.2⟩

def droppedSpanEx : Span :=
  (Tracer.Start ⟨"svc", NeverSampler, false⟩ none "op" {} exampleTraceID
    exampleSpanID 5).2

/-- C8 counterexample: the dropped no-op span is finalized
(`ended = true`) yet its `Duration` is the live estimate `now − start`,
not `endTime − startTime` (its end time was never recorded). -/
theorem duration_finalized_counterexample :
    droppedSpanEx.ended = true ∧
    droppedSpanEx.Duration 7 ≠
      (droppedSpanEx.endTime : Int) - (droppedSpanEx.startTime : Int) := by
  constructor
  · rfl
  · decide

/-- C8 (amended): `Duration` returns `endTime − startTime` whenever a
non-zero end time has been recorded — in particular after `End` at a
non-zero instant — and otherwise (including for dropped no-op spans,
which are finalized without a recorded end time) returns the live
estimate `now − startTime`. -/
theorem duration_spec (s : Span) (now : Nat) :
    (s.endTime ≠ 0 →
      s.Duration now = (s.endTime : Int) - (s.startTime : Int)) ∧
    (s.endTime = 0 →
      s.Duration now = (now : Int) - (s.startTime : Int)) ∧
    (∀ now₀ : Nat, s.ended = false → now₀ ≠ 0 →
      ((s.End now₀).1).Duration now = (now₀ : Int) - (s.startTime : Int)) := by
  refine ⟨?_, ?_, ?_⟩
  · intro h; simp [Span.Duration, h]
  · intro h; simp [Span.Duration, h]
  · intro now₀ hs h0
    simp [Span.End, hs, Span.Duration, h0]

/-- Witness for C8 (amended): duration after `End` on a concrete span. -/
theorem duration_spec_witness :
    ((sampleSpan.End 7).1).Duration 9 = (7 : Int) - (5 : Int) :=
  (duration_spec sampleSpan 9).2.2 7 rfl (by decide)

/-- C10: Dropped spans act as sampled parents — after a drop decision the
returned no-op span is attached to the returned context
(`SpanFromContext` yields it); a child started from that context (with no
explicit parent) resolves the dropped span as its parent, so the sampler
is invoked with the dropped span's trace ID and `parentSampled = true`,
and — whatever the child's sampler decides — the child inherits the
dropped span's trace ID and gets `parentID` equal to its span ID. -/
theorem dropped_parent_behaves_sampled (t : Tracer) (ctx : Ctx)
    (name : String) (options : StartSpanOptions) (ntid nsid : List Nat)
    (now : Nat)
    (hdrop : (t.sampler (resolveStart ctx options ntid).2.1 name
      (resolveStart ctx options ntid).2.2.2).Decision = .drop) :
    SpanFromContext (t.Start ctx name options ntid nsid now).1 =
      some (t.Start ctx name options ntid nsid now).2 ∧
    (∀ (opts2 : StartSpanOptions) (ntid2 : List Nat), opts2.Parent = none →
      resolveStart (t.Start ctx name options ntid nsid now).1 opts2 ntid2 =
        (some (t.Start ctx name options ntid nsid now).2,
          (t.Start ctx name options ntid nsid now).2.traceID,
          (t.Start ctx name options ntid nsid now).2.spanID, true)) ∧
    (∀ (t2 : Tracer) (name2 : String) (opts2 : StartSpanOptions)
        (ntid2 nsid2 : List Nat) (now2 : Nat), opts2.Parent = none →
      (t2.Start (t.Start ctx name options ntid nsid now).1 name2 opts2
          ntid2 nsid2 now2).2.traceID =
        (t.Start ctx name options ntid nsid now).2.traceID ∧
      (t2.Start (t.Start ctx name options ntid nsid now).1 name2 opts2
          ntid2 nsid2 now2).2.parentID =
        (t.Start ctx name options ntid nsid now).2.spanID) := by
  rw [start_drop_eq t ctx name options ntid nsid now hdrop]
  refine ⟨rfl, ?_, ?_⟩
  · intro opts2 ntid2 hp2
    simp [resolveStart, hp2, SpanFromContext]
  · intro t2 name2 opts2 ntid2 nsid2 now2 hp2
    have hres : resolveStart (some (droppedSpan ctx options ntid nsid name now))
        opts2 ntid2 =
        (some (droppedSpan ctx options ntid nsid name now),
          (droppedSpan ctx options ntid nsid name now).traceID,
          (droppedSpan ctx options ntid nsid name now).spanID, true) := by
      simp [resolveStart, hp2, SpanFromContext]
    by_cases hd2 : (t2.sampler
        (resolveStart (some (droppedSpan ctx options ntid nsid name now))
          opts2 ntid2).2.1 name2
        (resolveStart (some (droppedSpan ctx options ntid nsid name now))
          opts2 ntid2).2.2.2).Decision = .drop
    · rw [start_drop_eq t2 _ name2 opts2 ntid2 nsid2 now2 hd2]
      simp [droppedSpan, resolveStart, hp2, SpanFromContext]
    · simp only [Tracer.Start]
      rw [if_neg hd2]
      simp [hres]

/-- Witness for C10 with the `NeverSampler`. -/
theorem dropped_parent_behaves_sampled_witness :
    resolveStart
        (Tracer.Start ⟨"svc", NeverSampler, true⟩ none "op" {} exampleTraceID
          exampleSpanID 5).1 {} exampleTraceID =
      (some (Tracer.Start ⟨"svc", NeverSampler, true⟩ none "op" {}
          exampleTraceID exampleSpanID 5).2,
        (Tracer.Start ⟨"svc", NeverSampler, true⟩ none "op" {} exampleTraceID
          exampleSpanID 5).2.traceID,
        (Tracer.Start ⟨"svc", NeverSampler, true⟩ none "op" {} exampleTraceID
          exampleSpanID 5).2.spanID, true) :=
  (dropped_parent_behaves_sampled ⟨"svc", NeverSampler, true⟩ none "op" {}
    exampleTraceID exampleSpanID 5 rfl).2.1 {} exampleTraceID rfl

/-! ## Batch processor (`trace/otlp/batch.go`)

Spans in the queue are abstracted to `Nat` identities.  Each operation
returns the new processor state together with the batch handed to the
underlying exporter, if any.  The timer-triggered `flush` is modelled as
an operation that may occur at any point of an operation sequence; the
`BatchTimeout` field only governs *when* it fires, which has no bearing
on the queue-length and eviction properties. -/

/-- `otlp.BatchProcessorConfig` (Go `int` fields, possibly non-positive). -/
structure BatchProcessorConfig where
  MaxQueueSize : Int
  BatchSize : Int
  BatchTimeout : Int
deriving DecidableEq, Repr

/-- `otlp.DefaultBatchConfig` (timeout in nanoseconds). -/
def DefaultBatchConfig : BatchProcessorConfig :=
  ⟨2048, 512, 5000000000⟩

/-- `otlp.BatchProcessor` state (the exporter handle and timer are not
part of the queue semantics). -/
structure BatchProcessor where
  maxQueueSize : Nat
  batchSize : Nat
  queue : List Nat
  stopped : Bool
deriving DecidableEq, Repr

/-- `otlp.NewBatchProcessor`: non-positive configuration values fall back
to the defaults; the queue starts empty. -/
def NewBatchProcessor (cfg : BatchProcessorConfig) : BatchProcessor :=
  { maxQueueSize := if cfg.MaxQueueSize ≤ 0 then 2048 else cfg.MaxQueueSize.toNat,
    batchSize := if cfg.BatchSize ≤ 0 then 512 else cfg.BatchSize.toNat,
    queue := [],
    stopped := false }

/-- `BatchProcessor.EnqueueSpan`: no-op when stopped; evicts the oldest
entry when the queue is full; appends; exports immediately when the
batch size is reached. -/
def EnqueueSpan (bp : BatchProcessor) (span : Nat) :
    BatchProcessor × Option (List Nat) :=
  if bp.stopped then (bp, none)
  else
    let q1 := if bp.queue.length ≥ bp.maxQueueSize then bp.queue.drop 1
      else bp.queue
    let q2 := q1 ++ [span]
    if q2.length ≥ bp.batchSize then ({ bp with queue := [] }, some q2)
    else ({ bp with queue := q2 }, none)

/-- `BatchProcessor.flush` (the timer callback): exports the current
queue contents, if any, and resets the queue. -/
def flush (bp : BatchProcessor) : BatchProcessor × Option (List Nat) :=
  if bp.queue.isEmpty then (bp, none)
  else ({ bp with queue := [] }, some bp.queue)

/-- `BatchProcessor.Shutdown`: idempotent; disables further enqueues and
exports whatever remains. -/
def Shutdown (bp : BatchProcessor) : BatchProcessor × Option (List Nat) :=
  if bp.stopped then (bp, none)
  else if bp.queue.isEmpty then ({ bp with stopped := true }, none)
  else ({ bp with stopped := true, queue := [] }, some bp.queue)

/-- One observable operation on the batch processor. -/
inductive BPOp where
  | enq (span : Nat)
  | flush
  | shutdown
deriving DecidableEq, Repr

/-- Dispatch one operation. -/
def stepBP (bp : BatchProcessor) : BPOp → BatchProcessor × Option (List Nat)
  | .enq sp => EnqueueSpan bp sp
  | .flush => flush bp
  | .shutdown => Shutdown bp

/-- Run a sequence of operations, collecting every exported batch. -/
def runBP : BatchProcessor → List BPOp → BatchProcessor × List (List Nat)
  | bp, [] => (bp, [])
  | bp, op :: ops =>
    let r := stepBP bp op
    let rest := runBP r.1 ops
    (rest.1,
      match r.2 with
      | none => rest.2
      | some b => b :: rest.2)


theorem stepBP_config (bp : BatchProcessor) (op : BPOp) :
    (stepBP bp op).1.maxQueueSize = bp.maxQueueSize := by
  cases op with
  | enq sp =>
    simp only [stepBP, EnqueueSpan]
    repeat' split
    all_goals rfl
  | flush =>
    simp only [stepBP, flush]
    repeat' split
    all_goals rfl
  | shutdown =>
    simp only [stepBP, Shutdown]
    repeat' split
    all_goals rfl

theorem stepBP_bound (bp : BatchProcessor) (op : BPOp)
    (hm : 1 ≤ bp.maxQueueSize) (hq : bp.queue.length ≤ bp.maxQueueSize) :
    (stepBP bp op).1.queue.length ≤ bp.maxQueueSize := by
  cases op with
  | enq sp =>
    simp only [stepBP, EnqueueSpan]
    repeat' split
    all_goals simp only [List.length_append, List.length_drop,
      List.length_nil, List.length_singleton]
    all_goals omega
  | flush =>
    simp only [stepBP, flush]
    repeat' split
    all_goals simp only [List.length_nil]
    all_goals omega
  | shutdown =>
    simp only [stepBP, Shutdown]
    repeat' split
    all_goals simp only [List.length_nil]
    all_goals omega

theorem runBP_bound (ops : List BPOp) (bp : BatchProcessor)
    (hm : 1 ≤ bp.maxQueueSize) (hq : bp.queue.length ≤ bp.maxQueueSize) :
    (runBP bp ops).1.queue.length ≤ bp.maxQueueSize := by
  induction ops generalizing bp with
  | nil => exact hq
  | cons op ops ih =>
    simp only [runBP]
    have hcfg := stepBP_config bp op
    have := ih (stepBP bp op).1 (hcfg ▸ hm) (hcfg ▸ stepBP_bound bp op hm hq)
    rw [hcfg] at this
    exact this

theorem enqueue_evicts_oldest (bp : BatchProcessor) (x y : Nat)
    (rest : List Nat) (hstop : bp.stopped = false)
    (hqueue : bp.queue = y :: rest)
    (hfull : bp.queue.length = bp.maxQueueSize) :
    ((EnqueueSpan bp x).1.queue = rest ++ [x] ∧ (EnqueueSpan bp x).2 = none) ∨
    ((EnqueueSpan bp x).1.queue = [] ∧
      (EnqueueSpan bp x).2 = some (rest ++ [x])) := by
  have hge : bp.maxQueueSize ≤ rest.length + 1 := by
    rw [hqueue] at hfull
    simp only [List.length_cons] at hfull
    omega
  by_cases hbs : bp.batchSize ≤ rest.length + 1
  · right
    simp [EnqueueSpan, hstop, hqueue, hge, hbs]
  · left
    simp [EnqueueSpan, hstop, hqueue, hge, hbs]

theorem stepBP_no_reintroduce (bp : BatchProcessor) (op : BPOp) (y : Nat)
    (hop : ∀ z, op = .enq z → z ≠ y) (hy : y ∉ bp.queue) :
    y ∉ (stepBP bp op).1.queue ∧
    ∀ b, (stepBP bp op).2 = some b → y ∉ b := by
  have hdrop : y ∉ bp.queue.drop 1 := fun hmem => hy (List.mem_of_mem_drop hmem)
  cases op with
  | enq sp =>
    have hne : sp ≠ y := hop sp rfl
    have happ : y ∉ bp.queue.drop 1 ++ [sp] := by
      intro hmem
      rcases List.mem_append.mp hmem with h | h
      · exact hdrop h
      · exact hne (List.mem_singleton.mp h).symm
    have happ2 : y ∉ bp.queue ++ [sp] := by
      intro hmem
      rcases List.mem_append.mp hmem with h | h
      · exact hy h
      · exact hne (List.mem_singleton.mp h).symm
    simp only [stepBP, EnqueueSpan]
    repeat' split
    all_goals simp_all
  | flush =>
    simp only [stepBP, flush]
    repeat' split
    all_goals simp_all
  | shutdown =>
    simp only [stepBP, Shutdown]
    repeat' split
    all_goals simp_all

theorem runBP_no_reintroduce (ops : List BPOp) (bp : BatchProcessor)
    (y : Nat) (hy : y ∉ bp.queue)
    (hops : ∀ z, BPOp.enq z ∈ ops → z ≠ y) :
    y ∉ (runBP bp ops).1.queue ∧ ∀ b ∈ (runBP bp ops).2, y ∉ b := by
  induction ops generalizing bp with
  | nil => exact ⟨hy, by simp [runBP]⟩
  | cons op ops ih =>
    have hop : ∀ z, op = .enq z → z ≠ y :=
      fun z hz => hops z (hz ▸ List.mem_cons_self _ _)
    have hstep := stepBP_no_reintroduce bp op y hop hy
    have hrest := ih (stepBP bp op).1 hstep.1
      (fun z hz => hops z (List.mem_cons_of_mem _ hz))
    refine ⟨hrest.1, ?_⟩
    intro b hb
    simp only [runBP] at hb
    cases hex : (stepBP bp op).2 with
    | none =>
      rw [hex] at hb
      exact hrest.2 b hb
    | some b0 =>
      rw [hex] at hb
      rcases List.mem_cons.mp hb with rfl | hb2
      · exact hstep.2 b hex
      · exact hrest.2 b hb2

/-- C6: Batch queue bound and eviction — the configured maximum is at
least 1 after normalization; over every sequence of enqueue/flush/shutdown
operations from a fresh processor the queue length never exceeds the
configured maximum; and an enqueue on a full queue evicts the oldest
entry before appending, so the evicted span is in neither the resulting
queue nor any batch exported by this enqueue or by later operations that
do not re-enqueue it — in particular it is absent from the next flush. -/
theorem batch_queue_bound_and_eviction :
    (∀ cfg : BatchProcessorConfig, 1 ≤ (NewBatchProcessor cfg).maxQueueSize) ∧
    (∀ (cfg : BatchProcessorConfig) (ops : List BPOp),
      (runBP (NewBatchProcessor cfg) ops).1.queue.length ≤
        (NewBatchProcessor cfg).maxQueueSize) ∧
    (∀ (bp : BatchProcessor) (x y : Nat) (rest : List Nat),
      bp.stopped = false → bp.queue = y :: rest →
      bp.queue.length = bp.maxQueueSize →
      (((EnqueueSpan bp x).1.queue = rest ++ [x] ∧
          (EnqueueSpan bp x).2 = none) ∨
        ((EnqueueSpan bp x).1.queue = [] ∧
          (EnqueueSpan bp x).2 = some (rest ++ [x]))) ∧
      (y ∉ rest → y ≠ x →
        (∀ b, (EnqueueSpan bp x).2 = some b → y ∉ b) ∧
        (∀ ops : List BPOp, (∀ z, BPOp.enq z ∈ ops → z ≠ y) →
          ∀ b ∈ (runBP (EnqueueSpan bp x).1 ops).2, y ∉ b))) := by
  have hone : ∀ cfg : BatchProcessorConfig,
      1 ≤ (NewBatchProcessor cfg).maxQueueSize := by
    intro cfg
    simp only [NewBatchProcessor]
    split
    · omega
    · rename_i h
      omega
  refine ⟨hone, ?_, ?_⟩
  · intro cfg ops
    exact runBP_bound ops (NewBatchProcessor cfg) (hone cfg)
      (by simp [NewBatchProcessor])
  · intro bp x y rest hstop hqueue hfull
    have hshape := enqueue_evicts_oldest bp x y rest hstop hqueue hfull
    refine ⟨hshape, ?_⟩
    intro hyrest hyx
    have hynot : y ∉ rest ++ [x] := by
      intro hmem
      rcases List.mem_append.mp hmem with h | h
      · exact hyrest h
      · exact hyx (List.mem_singleton.mp h)
    have hyqueue : y ∉ (EnqueueSpan bp x).1.queue := by
      rcases hshape with ⟨hq, _⟩ | ⟨hq, _⟩
      · rw [hq]; exact hynot
      · rw [hq]; exact List.not_mem_nil y
    refine ⟨?_, ?_⟩
    · intro b hb
      rcases hshape with ⟨_, hex⟩ | ⟨_, hex⟩
      · rw [hex] at hb; exact Option.noConfusion hb
      · rw [hex] at hb
        injection hb with hb'
        rw [← hb']
        exact hynot
    · intro ops hops
      exact (runBP_no_reintroduce ops (EnqueueSpan bp x).1 y hyqueue hops).2

/-- Witness for C6: enqueueing 3 onto the full queue [1, 2] (max 2). -/
theorem batch_queue_bound_and_eviction_witness :
    ((EnqueueSpan ⟨2, 5, [1, 2], false⟩ 3).1.queue = [2] ++ [3] ∧
      (EnqueueSpan ⟨2, 5, [1, 2], false⟩ 3).2 = none) ∨
    ((EnqueueSpan ⟨2, 5, [1, 2], false⟩ 3).1.queue = [] ∧
      (EnqueueSpan ⟨2, 5, [1, 2], false⟩ 3).2 = some ([2] ++ [3])) :=
  (batch_queue_bound_and_eviction.2.2 ⟨2, 5, [1, 2], false⟩ 3 1 [2]
    rfl rfl rfl).1

/-! ## HTTP propagator (`Propagator.Extract` in the http transport)

An `http.Header` carrier is modelled as the two (case-insensitively
canonicalized) header slots the propagator reads: the lists of values for
`traceparent` and `tracestate`.  `headers.Get` returns the first value or
the empty string; `headers.Values` returns all of them.  The carrier
type-assertion failure mode (`carrier` not an `http.Header`) is outside
this model. -/

/-- The two header slots of the carrier that `Extract` consults. -/
structure HTTPHeader where
  traceparent : List (List Char)
  tracestate : List (List Char)
deriving DecidableEq, Repr

/-- Go `http.Header.Get`: first value, or `""` when absent. -/
def headerGet (values : List (List Char)) : List Char :=
  values.headD []

/-- Go `strings.Join(vs, ",")`. -/
def joinComma : List (List Char) → List Char
  | [] => []
  | [v] => v
  | v :: rest => v ++ ',' :: joinComma rest

/-- `trace.SpanContext` (the full version with propagation fields). -/
structure SpanContext where
  TraceID : List Nat
  SpanID : List Nat
  Tracestate : List Char
  IsRemote : Bool
  Sampled : Bool
deriving DecidableEq, Repr

/-- `trace.NewRemoteSpanContext`. -/
def NewRemoteSpanContext (traceID spanID : List Nat) (tracestate : List Char)
    (sampled : Bool) : SpanContext :=
  { TraceID := traceID, SpanID := spanID, Tracestate := tracestate,
    IsRemote := true, Sampled := sampled }

/-- `http.Propagator.Extract`: missing or malformed traceparent is an
error (`none`); a malformed tracestate alone is dropped (empty string)
while the primary context is still returned. -/
def Extract (headers : HTTPHeader) : Option SpanContext :=
  let traceparent := headerGet headers.traceparent
  if traceparent.isEmpty then none
  else
    match ParseTraceparent traceparent with
    | none => none
    | some (traceID, parentID, flags) =>
      let sampled := flags.land SampledFlag != 0
      let tracestateHeaders := headers.tracestate
      let tracestate :=
        if tracestateHeaders.length > 0 then
          let joined := joinComma tracestateHeaders
          match ParseTracestate joined with
          | none => []
          | some _ => joined
        else []
      some (NewRemoteSpanContext traceID parentID tracestate sampled)


/-- C9: Propagator extraction failure modes — a missing traceparent
header is an error; a malformed traceparent is an error for every
tracestate slot (so the tracestate values are never consulted: the
outcome is `none` whatever they are); and a valid traceparent with a
malformed tracestate alone succeeds with the tracestate dropped (empty)
and the primary trace context (trace ID, parent ID, sampled bit 0 of the
flags byte) still returned. -/
theorem extract_failure_modes :
    (∀ h : HTTPHeader, headerGet h.traceparent = [] → Extract h = none) ∧
    (∀ tps ts : List (List Char),
      ParseTraceparent (headerGet tps) = none →
      Extract ⟨tps, ts⟩ = none) ∧
    (∀ (h : HTTPHeader) (tid pid : List Nat) (fl : Nat),
      ParseTraceparent (headerGet h.traceparent) = some (tid, pid, fl) →
      h.tracestate ≠ [] →
      ParseTracestate (joinComma h.tracestate) = none →
      Extract h = some (NewRemoteSpanContext tid pid []
        (fl.land SampledFlag != 0))) := by
  refine ⟨?_, ?_, ?_⟩
  · intro h hh
    simp [Extract, hh]
  · intro tps ts hp
    cases hem : (headerGet tps).isEmpty with
    | true => simp [Extract, hem]
    | false => simp [Extract, hem, hp]
  · intro h tid pid fl hp hts hbad
    have hne : headerGet h.traceparent ≠ [] := by
      intro h0
      rw [h0] at hp
      have : ParseTraceparent ([] : List Char) = none := by rfl
      rw [this] at hp
      exact Option.noConfusion hp
    have hem : (headerGet h.traceparent).isEmpty = false := by
      cases hg : headerGet h.traceparent with
      | nil => exact absurd hg hne
      | cons c t => rfl
    have hlen : 0 < h.tracestate.length := List.length_pos.mpr hts
    simp [Extract, hem, hp, hlen, hbad, NewRemoteSpanContext]

/-- Witness for C9: valid traceparent with the malformed tracestate
`"invalid entry"`. -/
theorem extract_failure_modes_witness :
    Extract ⟨["00-0af7651916cd43dd8448eb211c80319c-b7ad6b7169203331-01".toList],
        ["invalid entry".toList]⟩ =
      some (NewRemoteSpanContext exampleTraceID exampleSpanID []
        ((1 : Nat).land SampledFlag != 0)) :=
  extract_failure_modes.2.2
    ⟨["00-0af7651916cd43dd8448eb211c80319c-b7ad6b7169203331-01".toList],
      ["invalid entry".toList]⟩
    exampleTraceID exampleSpanID 1 (by rfl) (by decide) (by rfl)

end Bedrock
